import Mathlib

/-!
# Verification of the basic-block layer of rellume (`src/llbasicblock.cc`)

Shallow embedding of `BasicBlock::AddPhis`, `BasicBlock::AddBranches`,
`BasicBlock::AddInst`, `BasicBlock::Terminate` and `BasicBlock::FillPhis`.

Blocks live in an arena (`LState.blocks`) indexed by `Nat`, mirroring the
C++ pointer graph.  PHI nodes are LLVM-heap objects mutated across blocks
during `FillPhis`, so they live in a global arena (`LState.phiArena`) and
are referenced by index.

Components of the repository that are only declared, not defined, under
`src/` (the register file of `llregfile-internal.h`, the facet catalog,
`warn_if_reached` of `llcommon-internal.h`, the opcode table
`opcodes.inc`) are modelled from the spec; each such definition says so in
its doc comment.  LLVM itself is third-party; the parts of its value
taxonomy that `Terminate` consults (`isa<Constant>`, `Constant::isNullValue`,
`isa<UndefValue>`, `SelectInst`) are embedded following LLVM's documented
class hierarchy, in which `UndefValue` derives from `Constant`.
-/

set_option autoImplicit false

namespace Rellume

/-- Modelled from the spec (§3): register kinds used by `llbasicblock.cc`:
general-purpose (`LL_RT_GP64`), vector (`LL_RT_XMM`) and instruction
pointer (`LL_RT_IP`). -/
inductive RegKind where
  | gp64
  | xmm
  | ip
  deriving DecidableEq, Repr

/-- A register identity: kind plus numeric index, as in `LLReg(kind, index)`. -/
structure LLReg where
  kind : RegKind
  index : Nat
  deriving DecidableEq, Repr

/-- Modelled from the spec (§3): facet tags, sub-views of a register.  The
facet enumeration itself is outside `src/`; only distinctness and the
catalog map matter for the claims. -/
inductive Facet where
  | I8
  | I8H
  | I16
  | I32
  | I64
  | I128
  | PTR
  | V2I64
  | V4I32
  deriving DecidableEq, Repr

/-- An IR type: `i1` for flags, or the catalog type of a facet. -/
inductive IRType where
  | i1
  | ofFacet (f : Facet)
  deriving DecidableEq, Repr

/-- Modelled from the spec (§4.1): the facet catalog `Facet::Type`, a pure
total map from facet to primitive IR type. -/
def FacetType (f : Facet) : IRType := IRType.ofFacet f

/-- An LLVM value as far as `llbasicblock.cc` inspects values:
integer constants (`ConstantInt`), `UndefValue`, `SelectInst` results,
PHI nodes (by arena index) and other opaque instruction results.
Machine-width constants carry their value reduced mod `2 ^ w`. -/
inductive Value where
  | constInt (w : Nat) (v : Nat)
  | undef
  | select (cond t f : Value)
  | phi (id : Nat)
  | inst (id : Nat)
  deriving DecidableEq, Repr

/-- `llvm::isa<llvm::Constant>`: in LLVM's class hierarchy both
`ConstantInt` and `UndefValue` derive from `Constant`; select results,
PHIs and other instruction results do not. -/
def Value.isConstant : Value → Bool
  | .constInt _ _ => true
  | .undef => true
  | _ => false

/-- `llvm::Constant::isNullValue`: true exactly for the zero integer
constant (among the values occurring here); `UndefValue` is not a null
value. -/
def Value.isNullValue : Value → Bool
  | .constInt _ v => v == 0
  | _ => false

/-- `llvm::isa<llvm::UndefValue>`. -/
def Value.isUndefValue : Value → Bool
  | .undef => true
  | _ => false

/-- `llvm::isa<llvm::SelectInst>` (on the values occurring here). -/
def Value.isSelect : Value → Bool
  | .select _ _ _ => true
  | _ => false

/-- Modelled from the spec (§4.2): the per-block Register File of
`llregfile-internal.h` (outside `src/`): a map from (register, facet) to
current IR value, plus a flat flag map. -/
structure RegFile where
  reg : LLReg → Facet → Option Value
  flag : Nat → Option Value

/-- The empty register file. -/
def RegFile.empty : RegFile := ⟨fun _ _ => none, fun _ => none⟩

instance : Inhabited RegFile := ⟨RegFile.empty⟩

/-- Modelled from the spec (§4.2): `RegFile::SetReg`.  A plain write
(`invalidate = false`) stores the value for exactly the written facet; an
invalidating write additionally drops every other cached facet of the same
register. -/
def SetReg (rf : RegFile) (r : LLReg) (f : Facet) (v : Value) (invalidate : Bool) : RegFile :=
  { rf with reg := fun r' f' =>
      if r' = r then
        if f' = f then some v
        else if invalidate then none else rf.reg r' f'
      else rf.reg r' f' }

/-- Modelled from the spec (§4.2): `RegFile::GetReg` returns the value
last stored for exactly this (register, facet) pair. -/
def GetReg (rf : RegFile) (r : LLReg) (f : Facet) : Option Value := rf.reg r f

/-- Modelled from the spec (§4.2): `RegFile::SetFlag`, flat, no aliasing. -/
def SetFlag (rf : RegFile) (i : Nat) (v : Value) : RegFile :=
  { rf with flag := fun j => if j = i then some v else rf.flag j }

/-- Modelled from the spec (§4.2): `RegFile::GetFlag`. -/
def GetFlag (rf : RegFile) (i : Nat) : Option Value := rf.flag i

/-- `LL_RI_GPMax`: 16 general-purpose register slots (spec §3). -/
abbrev LL_RI_GPMax : Nat := 16

/-- `LL_RI_XMMMax`: 16 vector register slots (spec §3). -/
abbrev LL_RI_XMMMax : Nat := 16

/-- `RFLAG_Max`: number of condition-code flag indices (spec §3: flags
`0 .. F-1`; the exact enumeration is outside `src/`, six condition-code
flags are modelled). -/
abbrev RFLAG_Max : Nat := 6

/-- A PHI node of the LLVM heap: its IR type and its list of incoming
`(value, predecessor llvm-block)` pairs, in insertion order.
`addIncoming` appends to `incoming`. -/
structure PhiNode where
  ty : IRType
  incoming : List (Option Value × Nat)
  deriving DecidableEq, Repr

/-- A non-terminator instruction emitted into a block's body, as far as
`llbasicblock.cc` emits them: a PHI declaration (`CreatePHI`), the
`donothing` separator call, or the selector `SelectInst`. -/
inductive IRInst where
  | phiDecl (id : Nat)
  | donothingCall
  | select (cond t f : Value)
  deriving DecidableEq, Repr

/-- A block terminator: `CreateBr` or `CreateCondBr`, targets given by the
successors' `llvmBB` identities. -/
inductive Terminator where
  | br (target : Nat)
  | condBr (cond : Value) (taken fallThrough : Nat)
  deriving DecidableEq, Repr

/-- One `rellume::BasicBlock`: the `llvmBB` identity, the emitted body and
terminator, the register file, the merge-placeholder slot structures
(`phis_gp`, `phis_sse`, `phiFlags`; each slot is `none` until `AddPhis`
installs a PHI-arena index), the predecessor list and the two successors,
and the branch selector `new_rip`. -/
structure BasicBlock where
  llvmBB : Nat
  body : List IRInst
  term : Option Terminator
  regfile : RegFile
  phis_gp : Fin LL_RI_GPMax → List (Facet × Option Nat)
  phis_sse : Fin LL_RI_XMMMax → List (Facet × Option Nat)
  phiFlags : Fin RFLAG_Max → Option Nat
  preds : List Nat
  nextBranch : Option Nat
  nextFallThrough : Option Nat
  new_rip : Option Value

/-- The default (freshly constructed, empty) basic block. -/
def BasicBlock.default : BasicBlock :=
  ⟨0, [], none, RegFile.empty, fun _ => [], fun _ => [], fun _ => none, [], none, none, none⟩

instance : Inhabited BasicBlock := ⟨BasicBlock.default⟩

/-- The whole lifter state: the block arena, the PHI-node arena, and
`LLState::regfile`, the pointer to the current block's register file
(`none` models `NULL`). -/
structure LState where
  blocks : List BasicBlock
  phiArena : List PhiNode
  stateRegfile : Option Nat

/-- Arena lookup (C++ pointers are always valid; out-of-range indices
return the default block). -/
def LState.getBlock (st : LState) (i : Nat) : BasicBlock := st.blocks.getD i default

/-- Arena update at index `i`. -/
def LState.updateBlock (st : LState) (i : Nat) (f : BasicBlock → BasicBlock) : LState :=
  { st with blocks := st.blocks.set i (f (st.getBlock i)) }

/-- `BasicBlock::SetCurrent`: point `LLState::regfile` (and the builder's
insertion point) at this block. -/
def SetCurrent (st : LState) (i : Nat) : LState :=
  { st with stateRegfile := some i }

/-- `state.regfile` dereferenced: the register file reads and writes go
through, when the handle is live. -/
def currentRegfile (st : LState) : Option RegFile :=
  st.stateRegfile.map (fun i => (st.getBlock i).regfile)

/-- Record a freshly created terminator in block `i` (the builder's
insertion point). -/
def setTerm (st : LState) (i : Nat) (t : Terminator) : LState :=
  st.updateBlock i (fun b => { b with term := some t })

/-- Fatal outcomes of `Terminate`: a failed `assert`, or dereferencing a
`NULL` successor pointer. -/
inductive TermErr where
  | assertFail
  | nullDeref
  deriving DecidableEq, Repr

/-- `BasicBlock::Terminate` (`llbasicblock.cc:164-196`): dispatch on the
branch selector `new_rip`.  `nullptr` selector: unconditional branch to
the fall-through successor.  A `SelectInst` selector: if the condition is
an `llvm::Constant` (which includes `UndefValue`), assert that some
successor exists and branch to the fall-through successor when the
constant is a null value, to the taken successor otherwise; if the
condition is neither a constant nor undef, assert both successors and emit
a conditional branch; otherwise emit nothing.  A non-select selector:
emit nothing (the final `else` is a stub). -/
def Terminate (st : LState) (bIdx : Nat) : Except TermErr LState :=
  let st := SetCurrent st bIdx
  let b := st.getBlock bIdx
  match b.new_rip with
  | none =>
      match b.nextFallThrough with
      | some ft => .ok (setTerm st bIdx (.br (st.getBlock ft).llvmBB))
      | none => .error .nullDeref
  | some v =>
      match v with
      | .select cond _ _ =>
          if cond.isConstant then
            if b.nextBranch.isSome || b.nextFallThrough.isSome then
              if cond.isNullValue then
                match b.nextFallThrough with
                | some ft => .ok (setTerm st bIdx (.br (st.getBlock ft).llvmBB))
                | none => .error .nullDeref
              else
                match b.nextBranch with
                | some tk => .ok (setTerm st bIdx (.br (st.getBlock tk).llvmBB))
                | none => .error .nullDeref
            else .error .assertFail
          else if !cond.isUndefValue then
            match b.nextBranch, b.nextFallThrough with
            | some tk, some ft =>
                .ok (setTerm st bIdx (.condBr cond (st.getBlock tk).llvmBB (st.getBlock ft).llvmBB))
            | _, _ => .error .assertFail
          else
            .ok st
      | _ => .ok st

/-- A merge-placeholder position: a general-purpose register facet, a
vector register facet, or a flag index.  Both `AddPhis` and `FillPhis`
iterate the placeholder structures in exactly this order: the
general-purpose loop (index-major, facet-minor), then the vector loop,
then the flag loop. -/
inductive SlotKey where
  | gp (i : Fin LL_RI_GPMax) (f : Facet)
  | sse (i : Fin LL_RI_XMMMax) (f : Facet)
  | flag (i : Fin RFLAG_Max)
  deriving DecidableEq, Repr

/-- `container.at(f)` on a placeholder association list: the slot stored
under facet key `f` (`none` also when the facet is not in the key set). -/
def lookupSlot (l : List (Facet × Option Nat)) (f : Facet) : Option Nat :=
  match l with
  | [] => none
  | (f', s) :: rest => if f' = f then s else lookupSlot rest f

/-- The slot currently stored for a placeholder position: `phis_gp[i].at(f)`,
`phis_sse[i].at(f)` or `phiFlags[i]`. -/
def BasicBlock.slotOf (b : BasicBlock) : SlotKey → Option Nat
  | .gp i f => lookupSlot (b.phis_gp i) f
  | .sse i f => lookupSlot (b.phis_sse i) f
  | .flag i => b.phiFlags i

/-- The register-file value a block holds for a placeholder position:
`GetReg(LLReg(LL_RT_GP64,i), f)`, `GetReg(LLReg(LL_RT_XMM,i), f)` or
`GetFlag(i)`. -/
def BasicBlock.rfValueOf (b : BasicBlock) : SlotKey → Option Value
  | .gp i f => GetReg b.regfile ⟨.gp64, i⟩ f
  | .sse i f => GetReg b.regfile ⟨.xmm, i⟩ f
  | .flag i => GetFlag b.regfile i

/-- The IR type `AddPhis` gives the placeholder at a position:
`Facet::Type(facet)` for register facets, `getInt1Ty()` for flags. -/
def SlotKey.ty : SlotKey → IRType
  | .gp _ f => FacetType f
  | .sse _ f => FacetType f
  | .flag _ => IRType.i1

/-- The flattened traversal of a block's placeholder structures, in the
loop order of `AddPhis` and `FillPhis`: for each general-purpose index the
facets of `phis_gp[i]` (with the stored slot), then the vector registers,
then every flag index. -/
def slotEntries (b : BasicBlock) : List (SlotKey × Option Nat) :=
  ((List.finRange LL_RI_GPMax).flatMap
      (fun i => (b.phis_gp i).map (fun e => (SlotKey.gp i e.1, e.2))))
    ++ ((List.finRange LL_RI_XMMMax).flatMap
      (fun i => (b.phis_sse i).map (fun e => (SlotKey.sse i e.1, e.2))))
    ++ ((List.finRange RFLAG_Max).map (fun i => (SlotKey.flag i, b.phiFlags i)))

/-- The facet-requirement worklist of a block: the placeholder positions,
keys only. -/
def reqEntries (b : BasicBlock) : List SlotKey := (slotEntries b).map Prod.fst

/-- `llvm::PHINode::addIncoming`: append one `(value, predecessor block)`
pair to the node's incoming list. -/
def phiAddIncoming (arena : List PhiNode) (id : Nat) (v : Option Value) (bb : Nat) :
    List PhiNode :=
  match arena.get? id with
  | some pn => arena.set id { pn with incoming := pn.incoming ++ [(v, bb)] }
  | none => arena

/-- One predecessor's pass of `FillPhis` over the placeholder entries: for
every installed slot, add the predecessor's register-file value for that
position as an incoming of the slot's PHI node, keyed by the
predecessor's `llvmBB`. -/
def fillEntries (pred : BasicBlock) (es : List (SlotKey × Option Nat))
    (arena : List PhiNode) : List PhiNode :=
  match es with
  | [] => arena
  | (k, slot) :: rest =>
      let arena' :=
        match slot with
        | some id => phiAddIncoming arena id (pred.rfValueOf k) pred.llvmBB
        | none => arena
      fillEntries pred rest arena'

/-- `BasicBlock::FillPhis` (`llbasicblock.cc:208-242`): null out
`LLState::regfile`, then for each predecessor (in predecessor-list order)
add that predecessor's final register-file value for every placeholder
position as one incoming of the placeholder's PHI node. -/
def FillPhis (st : LState) (bIdx : Nat) : LState :=
  let b := st.getBlock bIdx
  let arena := b.preds.foldl
    (fun ar p => fillEntries (st.getBlock p) (slotEntries b) ar) st.phiArena
  { st with phiArena := arena, stateRegfile := none }

/-- Replace the slot stored for facet `f` in one placeholder association
list (`phis_gp[i].at(f) = phiNode`). -/
def setSlot (l : List (Facet × Option Nat)) (f : Facet) (id : Nat) :
    List (Facet × Option Nat) :=
  l.map (fun e => if e.1 = f then (e.1, some id) else e)

/-- One iteration of the `AddPhis` loops at position `k` of block `bIdx`:
`CreatePHI(ty, 0)` (a fresh zero-incoming node appended to the arena and
declared in the block body), then a plain (non-invalidating) register
write of the node — `SetFlag` for flags — and recording of the node in
the slot structure. -/
def addPhiStep (bIdx : Nat) (st : LState) (k : SlotKey) : LState :=
  let id := st.phiArena.length
  let st1 : LState := { st with phiArena := st.phiArena ++ [⟨k.ty, []⟩] }
  st1.updateBlock bIdx (fun b =>
    match k with
    | .gp i f =>
        { b with body := b.body ++ [.phiDecl id],
                 regfile := SetReg b.regfile ⟨.gp64, i⟩ f (.phi id) false,
                 phis_gp := Function.update b.phis_gp i (setSlot (b.phis_gp i) f id) }
    | .sse i f =>
        { b with body := b.body ++ [.phiDecl id],
                 regfile := SetReg b.regfile ⟨.xmm, i⟩ f (.phi id) false,
                 phis_sse := Function.update b.phis_sse i (setSlot (b.phis_sse i) f id) }
    | .flag i =>
        { b with body := b.body ++ [.phiDecl id],
                 regfile := SetFlag b.regfile i (.phi id),
                 phiFlags := Function.update b.phiFlags i (some id) })

/-- The `AddPhis` worklist loop. -/
def addPhisEntries (bIdx : Nat) (st : LState) (es : List SlotKey) : LState :=
  match es with
  | [] => st
  | k :: rest => addPhisEntries bIdx (addPhiStep bIdx st k) rest

/-- `BasicBlock::AddPhis` (`llbasicblock.cc:58-94`): set the current
block, then create one zero-input PHI placeholder for every facet in the
general-purpose and vector requirement sets and for every flag index,
installing each into the register file and the slot structure. -/
def AddPhis (st : LState) (bIdx : Nat) : LState :=
  let st := SetCurrent st bIdx
  addPhisEntries bIdx st (reqEntries (st.getBlock bIdx))

/-- `BasicBlock::AddBranches` (`llbasicblock.cc:107-120`): for each
non-`NULL` argument, push this block onto that successor's predecessor
list and record the successor as `nextBranch` / `nextFallThrough`. -/
def AddBranches (st : LState) (self : Nat) (branch fallThrough : Option Nat) : LState :=
  let st1 :=
    match branch with
    | some t =>
        let sta := st.updateBlock t (fun b => { b with preds := b.preds ++ [self] })
        sta.updateBlock self (fun b => { b with nextBranch := some t })
    | none => st
  match fallThrough with
  | some t =>
      let sta := st1.updateBlock t (fun b => { b with preds := b.preds ++ [self] })
      sta.updateBlock self (fun b => { b with nextFallThrough := some t })
  | none => st1

/-- A decoded instruction record (`LLInstr`): address, length and opcode
(`type`). -/
structure LLInstr where
  addr : Nat
  len : Nat
  type : Nat
  deriving DecidableEq, Repr

/-- The fatal diagnostic of the default case of `AddInst`'s opcode switch:
"Could not handle instruction at addr" followed by `warn_if_reached`.
Modelled from the spec (§4.4, §7): `warn_if_reached` lives in
`llcommon-internal.h`, outside `src/`; the spec calls the condition a
lifter-cannot-proceed condition, so it is modelled as fatal. -/
inductive LiftError where
  | unhandledInstr (addr : Nat)
  deriving DecidableEq, Repr

/-- The common prologue of `BasicBlock::AddInst`
(`llbasicblock.cc:122-139`), before the opcode switch: set the current
block; compute `rip = instr.addr + instr.len` (a `uintptr_t`, hence
mod `2 ^ 64`); store the 64-bit `rip` constant into the instruction
pointer's `I64` facet with invalidation; emit the `donothing` separator
call; insert the default branch selector
`select(false, ripValue, ripValue)` and record it in `new_rip`. -/
def AddInstPre (st : LState) (bIdx : Nat) (instr : LLInstr) : LState :=
  let st := SetCurrent st bIdx
  let rip := (instr.addr + instr.len) % 2 ^ 64
  let ripValue := Value.constInt 64 rip
  let st := st.updateBlock bIdx (fun b =>
    { b with regfile := SetReg b.regfile ⟨.ip, 0⟩ Facet.I64 ripValue true })
  let st := st.updateBlock bIdx (fun b =>
    { b with body := b.body ++ [.donothingCall] })
  st.updateBlock bIdx (fun b =>
    { b with body := b.body ++ [.select (.constInt 1 0) ripValue ripValue],
             new_rip := some (.select (.constInt 1 0) ripValue ripValue) })

/-- `BasicBlock::AddInst` (`llbasicblock.cc:122-152`): run the prologue,
then dispatch on the opcode.  The recognized-opcode set (`opcodes.inc`)
and the per-opcode handlers are external collaborators, passed as
parameters; an unrecognized opcode is the fatal diagnostic naming the
instruction's address. -/
def AddInst (recognized : Nat → Bool) (handler : Nat → LState → LState)
    (st : LState) (bIdx : Nat) (instr : LLInstr) : Except LiftError LState :=
  let st := AddInstPre st bIdx instr
  if recognized instr.type then .ok (handler instr.type st)
  else .error (.unhandledInstr instr.addr)

/-! ## Arena lemmas -/

theorem LState.blocks_updateBlock (st : LState) (i : Nat) (f : BasicBlock → BasicBlock) :
    (st.updateBlock i f).blocks.length = st.blocks.length := by
  simp [LState.updateBlock]

theorem LState.getBlock_updateBlock_self (st : LState) (i : Nat)
    (f : BasicBlock → BasicBlock) (h : i < st.blocks.length) :
    (st.updateBlock i f).getBlock i = f (st.getBlock i) := by
  simp [LState.updateBlock, LState.getBlock, List.getD_eq_getElem?_getD,
    List.getElem?_set_self h]

theorem LState.getBlock_updateBlock_ne (st : LState) (i j : Nat)
    (f : BasicBlock → BasicBlock) (h : j ≠ i) :
    (st.updateBlock i f).getBlock j = st.getBlock j := by
  simp [LState.updateBlock, LState.getBlock, List.getD_eq_getElem?_getD,
    List.getElem?_set_ne (Ne.symm h)]

theorem LState.phiArena_updateBlock (st : LState) (i : Nat) (f : BasicBlock → BasicBlock) :
    (st.updateBlock i f).phiArena = st.phiArena := rfl

theorem LState.getBlock_setCurrent (st : LState) (i j : Nat) :
    (SetCurrent st i).getBlock j = st.getBlock j := rfl

theorem LState.blocks_setCurrent (st : LState) (i : Nat) :
    (SetCurrent st i).blocks = st.blocks := rfl

/-! ## C4, C5, C10, C1: `Terminate` -/

/-- C4.  `Terminate` follows the decision table on the branch selector: a
never-initialized selector (`new_rip == nullptr`) emits an unconditional
branch to the fall-through successor; a selector whose condition is the
compile-time-false constant emits an unconditional branch to the
fall-through successor; a selector whose condition is a compile-time-true
constant emits an unconditional branch to the taken-branch successor. -/
theorem terminate_decision_table (st : LState) (bIdx : Nat) :
    ((st.getBlock bIdx).new_rip = none →
      ∀ ft, (st.getBlock bIdx).nextFallThrough = some ft →
        Terminate st bIdx =
          .ok (setTerm (SetCurrent st bIdx) bIdx (.br (st.getBlock ft).llvmBB)))
    ∧ (∀ tv fv ft, (st.getBlock bIdx).new_rip = some (.select (.constInt 1 0) tv fv) →
        (st.getBlock bIdx).nextFallThrough = some ft →
        Terminate st bIdx =
          .ok (setTerm (SetCurrent st bIdx) bIdx (.br (st.getBlock ft).llvmBB)))
    ∧ (∀ tv fv tk w v, v ≠ 0 →
        (st.getBlock bIdx).new_rip = some (.select (.constInt w v) tv fv) →
        (st.getBlock bIdx).nextBranch = some tk →
        Terminate st bIdx =
          .ok (setTerm (SetCurrent st bIdx) bIdx (.br (st.getBlock tk).llvmBB))) := by
  refine ⟨fun h1 ft h2 => ?_, fun tv fv ft h1 h2 => ?_, fun tv fv tk w v hv h1 h2 => ?_⟩
  · simp [Terminate, LState.getBlock_setCurrent, h1, h2]
  · simp [Terminate, LState.getBlock_setCurrent, h1, h2, Value.isConstant,
      Value.isNullValue]
  · simp [Terminate, LState.getBlock_setCurrent, h1, h2, Value.isConstant,
      Value.isNullValue, hv]

/-- Concrete instantiation of `terminate_decision_table`: a two-block
arena where block 0 once has no selector, once a constant-false selector,
once a constant-true selector. -/
def tdtBlock (rip : Option Value) : BasicBlock :=
  { BasicBlock.default with
      llvmBB := 10
      nextBranch := some 1
      nextFallThrough := some 1
      new_rip := rip }

/-- The successor block of the concrete `Terminate` examples. -/
def tdtSucc : BasicBlock := { BasicBlock.default with llvmBB := 11 }

/-- Witness for C4: the three decision-table rows evaluated on concrete
two-block arenas. -/
theorem terminate_decision_table_witness :
    (Terminate ⟨[tdtBlock none, tdtSucc], [], none⟩ 0 =
      .ok (setTerm (SetCurrent ⟨[tdtBlock none, tdtSucc], [], none⟩ 0) 0 (.br 11)))
    ∧ (Terminate
        ⟨[tdtBlock (some (.select (.constInt 1 0) (.constInt 64 8) (.constInt 64 8))),
          tdtSucc], [], none⟩ 0 =
      .ok (setTerm (SetCurrent
        ⟨[tdtBlock (some (.select (.constInt 1 0) (.constInt 64 8) (.constInt 64 8))),
          tdtSucc], [], none⟩ 0) 0 (.br 11)))
    ∧ (Terminate
        ⟨[tdtBlock (some (.select (.constInt 1 1) (.constInt 64 8) (.constInt 64 8))),
          tdtSucc], [], none⟩ 0 =
      .ok (setTerm (SetCurrent
        ⟨[tdtBlock (some (.select (.constInt 1 1) (.constInt 64 8) (.constInt 64 8))),
          tdtSucc], [], none⟩ 0) 0 (.br 11))) := by
  refine ⟨?_, ?_, ?_⟩
  · exact (terminate_decision_table _ 0).1 (by decide) 1 (by decide)
  · exact (terminate_decision_table _ 0).2.1 (.constInt 64 8) (.constInt 64 8) 1
      (by decide) (by decide)
  · exact (terminate_decision_table _ 0).2.2 (.constInt 64 8) (.constInt 64 8) 1 1 1
      (by decide) (by decide) (by decide)

/-- A non-constant value is not `UndefValue` (in LLVM, `UndefValue`
derives from `Constant`). -/
theorem Value.isUndefValue_eq_false_of_not_isConstant (v : Value)
    (h : v.isConstant = false) : v.isUndefValue = false := by
  cases v <;> simp_all [Value.isConstant, Value.isUndefValue]

/-- C5.  On a genuine runtime (non-constant) selector condition,
`Terminate` emits a conditional branch whose targets are exactly the
registered taken-branch and fall-through successors; with either
successor unregistered it fails by assertion
(`assert(nextBranch && nextFallThrough)`), not as a recoverable error. -/
theorem terminate_runtime_cond (st : LState) (bIdx : Nat) (cond tv fv : Value)
    (hrip : (st.getBlock bIdx).new_rip = some (.select cond tv fv))
    (hc : cond.isConstant = false) :
    (∀ tk ft, (st.getBlock bIdx).nextBranch = some tk →
      (st.getBlock bIdx).nextFallThrough = some ft →
      Terminate st bIdx =
        .ok (setTerm (SetCurrent st bIdx) bIdx
          (.condBr cond (st.getBlock tk).llvmBB (st.getBlock ft).llvmBB)))
    ∧ ((st.getBlock bIdx).nextBranch = none ∨
        (st.getBlock bIdx).nextFallThrough = none →
      Terminate st bIdx = .error .assertFail) := by
  have hu := Value.isUndefValue_eq_false_of_not_isConstant cond hc
  constructor
  · intro tk ft h1 h2
    simp [Terminate, LState.getBlock_setCurrent, hrip, hc, hu, h1, h2]
  · intro h1
    rcases h1 with h1 | h1 <;>
      · simp only [Terminate, LState.getBlock_setCurrent, hrip, hc, hu,
          Bool.false_eq_true, if_false, Bool.not_false, if_true]
        rcases hnb : (st.getBlock bIdx).nextBranch with _ | tk <;>
          rcases hnf : (st.getBlock bIdx).nextFallThrough with _ | ft <;>
            simp_all

/-- Witness for C5: a runtime (PHI) condition with both successors
registered yields the conditional branch; with the taken successor
missing, the assertion fires. -/
theorem terminate_runtime_cond_witness :
    (Terminate ⟨[tdtBlock (some (.select (.phi 0) (.constInt 64 8) (.constInt 64 8))),
        tdtSucc], [], none⟩ 0 =
      .ok (setTerm (SetCurrent
        ⟨[tdtBlock (some (.select (.phi 0) (.constInt 64 8) (.constInt 64 8))),
          tdtSucc], [], none⟩ 0) 0 (.condBr (.phi 0) 11 11)))
    ∧ (Terminate
        ⟨[{ tdtBlock (some (.select (.phi 0) (.constInt 64 8) (.constInt 64 8))) with
            nextBranch := none }, tdtSucc], [], none⟩ 0 = .error .assertFail) := by
  constructor
  · exact (terminate_runtime_cond _ 0 (.phi 0) (.constInt 64 8) (.constInt 64 8)
      (by decide) (by decide)).1 1 1 (by decide) (by decide)
  · exact (terminate_runtime_cond _ 0 (.phi 0) (.constInt 64 8) (.constInt 64 8)
      (by decide) (by decide)).2 (Or.inl (by decide))

/-- C10.  A non-null branch selector that is not a `SelectInst` (for
example an opcode handler replaced it with a plain value) makes
`Terminate` emit nothing and raise nothing: it returns successfully with
every block — body and terminator included — unchanged. -/
theorem terminate_non_select_stub (st : LState) (bIdx : Nat) (v : Value)
    (hrip : (st.getBlock bIdx).new_rip = some v) (hv : v.isSelect = false) :
    Terminate st bIdx = .ok (SetCurrent st bIdx)
    ∧ (SetCurrent st bIdx).blocks = st.blocks
    ∧ ((SetCurrent st bIdx).getBlock bIdx).term = (st.getBlock bIdx).term := by
  refine ⟨?_, rfl, rfl⟩
  cases v <;> simp_all [Terminate, LState.getBlock_setCurrent, Value.isSelect]

/-- Witness for C10: a selector replaced by the plain constant 42 —
`Terminate` succeeds and the arena is untouched. -/
theorem terminate_non_select_stub_witness :
    Terminate ⟨[tdtBlock (some (.constInt 64 42)), tdtSucc], [], none⟩ 0 =
      .ok (SetCurrent ⟨[tdtBlock (some (.constInt 64 42)), tdtSucc], [], none⟩ 0)
    ∧ (SetCurrent ⟨[tdtBlock (some (.constInt 64 42)), tdtSucc], [], none⟩ 0).blocks =
        (⟨[tdtBlock (some (.constInt 64 42)), tdtSucc], [], none⟩ : LState).blocks
    ∧ ((SetCurrent ⟨[tdtBlock (some (.constInt 64 42)), tdtSucc], [], none⟩ 0).getBlock 0).term =
        ((⟨[tdtBlock (some (.constInt 64 42)), tdtSucc], [], none⟩ : LState).getBlock 0).term :=
  terminate_non_select_stub _ 0 (.constInt 64 42) (by decide) (by decide)

/-- C1 (failing input).  A block whose branch-selector condition is
explicitly undef, with both successors registered: because
`llvm::UndefValue` derives from `llvm::Constant`, the
`dyn_cast<Constant>` case intercepts the condition, `isNullValue()` is
false for undef, and `Terminate` emits an unconditional branch to the
taken-branch successor — the `!isa<UndefValue>` guard at
`llbasicblock.cc:186` is unreachable for undef, so no "emit no
terminator" behaviour occurs. -/
theorem terminate_undef_cond_emits_taken_branch :
    (Terminate
      ⟨[{ BasicBlock.default with
            llvmBB := 10
            nextBranch := some 1
            nextFallThrough := some 2
            new_rip := some (.select .undef (.constInt 64 8) (.constInt 64 8)) },
        { BasicBlock.default with llvmBB := 11 },
        { BasicBlock.default with llvmBB := 12 }], [], none⟩ 0).map
      (fun st' => (st'.getBlock 0).term) = .ok (some (.br 11)) := by
  rfl

/-! ## C9: `AddBranches` -/

/-- C9.  `AddBranches` skips absent arguments; for each present argument
it appends the calling block to that successor's predecessor list and
records the successor as the caller's taken-branch resp. fall-through
successor; and it is not idempotent: calling it twice with the same
successor appends the caller to that successor's predecessor list
twice. -/
theorem addBranches_registers_edges (st : LState) (self t ft : Nat)
    (hs : self < st.blocks.length) (ht : t < st.blocks.length)
    (hf : ft < st.blocks.length) (hst : self ≠ t) (hsf : self ≠ ft) (htf : t ≠ ft) :
    AddBranches st self none none = st
    ∧ ((AddBranches st self (some t) (some ft)).getBlock t).preds =
        (st.getBlock t).preds ++ [self]
    ∧ ((AddBranches st self (some t) (some ft)).getBlock ft).preds =
        (st.getBlock ft).preds ++ [self]
    ∧ ((AddBranches st self (some t) (some ft)).getBlock self).nextBranch = some t
    ∧ ((AddBranches st self (some t) (some ft)).getBlock self).nextFallThrough = some ft
    ∧ ((AddBranches (AddBranches st self (some t) none) self (some t) none).getBlock t).preds =
        (st.getBlock t).preds ++ [self, self] := by
  refine ⟨rfl, ?_, ?_, ?_, ?_, ?_⟩ <;>
    simp [AddBranches, LState.getBlock_updateBlock_self, LState.getBlock_updateBlock_ne,
      LState.blocks_updateBlock, hs, ht, hf, hst, hsf, htf, Ne.symm hst, Ne.symm hsf,
      Ne.symm htf]

/-- Witness for C9 on a concrete three-block arena. -/
theorem addBranches_registers_edges_witness :
    AddBranches ⟨[tdtBlock none, tdtSucc, BasicBlock.default], [], none⟩ 0 none none =
      ⟨[tdtBlock none, tdtSucc, BasicBlock.default], [], none⟩
    ∧ ((AddBranches ⟨[tdtBlock none, tdtSucc, BasicBlock.default], [], none⟩ 0
          (some 1) (some 2)).getBlock 1).preds =
        ((⟨[tdtBlock none, tdtSucc, BasicBlock.default], [], none⟩ : LState).getBlock 1).preds
          ++ [0]
    ∧ ((AddBranches ⟨[tdtBlock none, tdtSucc, BasicBlock.default], [], none⟩ 0
          (some 1) (some 2)).getBlock 2).preds =
        ((⟨[tdtBlock none, tdtSucc, BasicBlock.default], [], none⟩ : LState).getBlock 2).preds
          ++ [0]
    ∧ ((AddBranches ⟨[tdtBlock none, tdtSucc, BasicBlock.default], [], none⟩ 0
          (some 1) (some 2)).getBlock 0).nextBranch = some 1
    ∧ ((AddBranches ⟨[tdtBlock none, tdtSucc, BasicBlock.default], [], none⟩ 0
          (some 1) (some 2)).getBlock 0).nextFallThrough = some 2
    ∧ ((AddBranches (AddBranches ⟨[tdtBlock none, tdtSucc, BasicBlock.default], [], none⟩ 0
          (some 1) none) 0 (some 1) none).getBlock 1).preds =
        ((⟨[tdtBlock none, tdtSucc, BasicBlock.default], [], none⟩ : LState).getBlock 1).preds
          ++ [0, 0] :=
  addBranches_registers_edges _ 0 1 2 (by decide) (by decide) (by decide)
    (by decide) (by decide) (by decide)

/-! ## C3, C6: `AddInst` -/

/-- C3.  On an instruction whose opcode is not in the recognized set,
`AddInst` fails with the fatal diagnostic identifying the instruction's
address (no state is produced, so processing of the stream stops), and
the translation up to the failure has emitted no terminator for the
block. -/
theorem addInst_unrecognized_fatal (recognized : Nat → Bool)
    (handler : Nat → LState → LState) (st : LState) (bIdx : Nat) (instr : LLInstr)
    (hb : bIdx < st.blocks.length) (h : recognized instr.type = false) :
    AddInst recognized handler st bIdx instr = .error (.unhandledInstr instr.addr)
    ∧ ((AddInstPre st bIdx instr).getBlock bIdx).term = (st.getBlock bIdx).term := by
  constructor
  · simp [AddInst, h]
  · simp [AddInstPre, LState.getBlock_updateBlock_self, LState.blocks_updateBlock,
      LState.blocks_setCurrent, LState.getBlock_setCurrent, hb]

/-- Witness for C3: a one-block arena and an opcode the table rejects. -/
theorem addInst_unrecognized_fatal_witness :
    AddInst (fun _ => false) (fun _ s => s)
        ⟨[tdtBlock none], [], none⟩ 0 ⟨4096, 3, 9⟩ =
      .error (.unhandledInstr 4096)
    ∧ ((AddInstPre ⟨[tdtBlock none], [], none⟩ 0 ⟨4096, 3, 9⟩).getBlock 0).term =
        ((⟨[tdtBlock none], [], none⟩ : LState).getBlock 0).term :=
  addInst_unrecognized_fatal (fun _ => false) (fun _ s => s) _ 0 ⟨4096, 3, 9⟩
    (by decide) (by decide)

/-- C6.  Before dispatching to the opcode handler, `AddInst` (i) writes
the next-instruction address `(addr + len) mod 2^64` into the instruction
pointer's 64-bit facet with invalidation — afterwards every other facet
of the instruction pointer is dropped —, (ii) appends the side-effect-free
`donothing` marker and then the selector instruction to the block body,
(iii) sets the branch selector to a select with compile-time-false
condition whose both arms are the next-instruction address; the opcode
dispatch is applied to the state carrying all these effects. -/
theorem addInst_prologue_effects (recognized : Nat → Bool)
    (handler : Nat → LState → LState) (st : LState) (bIdx : Nat) (instr : LLInstr)
    (hb : bIdx < st.blocks.length) :
    GetReg ((AddInstPre st bIdx instr).getBlock bIdx).regfile ⟨.ip, 0⟩ Facet.I64 =
      some (.constInt 64 ((instr.addr + instr.len) % 2 ^ 64))
    ∧ (∀ f, f ≠ Facet.I64 →
        GetReg ((AddInstPre st bIdx instr).getBlock bIdx).regfile ⟨.ip, 0⟩ f = none)
    ∧ ((AddInstPre st bIdx instr).getBlock bIdx).body =
        (st.getBlock bIdx).body ++
          [.donothingCall,
           .select (.constInt 1 0)
             (.constInt 64 ((instr.addr + instr.len) % 2 ^ 64))
             (.constInt 64 ((instr.addr + instr.len) % 2 ^ 64))]
    ∧ ((AddInstPre st bIdx instr).getBlock bIdx).new_rip =
        some (.select (.constInt 1 0)
          (.constInt 64 ((instr.addr + instr.len) % 2 ^ 64))
          (.constInt 64 ((instr.addr + instr.len) % 2 ^ 64)))
    ∧ AddInst recognized handler st bIdx instr =
        (if recognized instr.type then .ok (handler instr.type (AddInstPre st bIdx instr))
         else .error (.unhandledInstr instr.addr)) := by
  refine ⟨?_, fun f hf => ?_, ?_, ?_, rfl⟩
  · simp [AddInstPre, LState.getBlock_updateBlock_self, LState.blocks_updateBlock,
      LState.blocks_setCurrent, LState.getBlock_setCurrent, hb, GetReg, SetReg]
  · simp [AddInstPre, LState.getBlock_updateBlock_self, LState.blocks_updateBlock,
      LState.blocks_setCurrent, LState.getBlock_setCurrent, hb, GetReg, SetReg, hf]
  · simp [AddInstPre, LState.getBlock_updateBlock_self, LState.blocks_updateBlock,
      LState.blocks_setCurrent, LState.getBlock_setCurrent, hb]
  · simp [AddInstPre, LState.getBlock_updateBlock_self, LState.blocks_updateBlock,
      LState.blocks_setCurrent, LState.getBlock_setCurrent, hb]

/-- Witness for C6 on a one-block arena: instruction at address 4096 of
length 3, recognized opcode 9 with the identity handler; the `I32` facet
of the instruction pointer is checked to be invalidated. -/
theorem addInst_prologue_effects_witness :
    GetReg ((AddInstPre ⟨[tdtBlock none], [], none⟩ 0 ⟨4096, 3, 9⟩).getBlock 0).regfile
        ⟨.ip, 0⟩ Facet.I64 = some (.constInt 64 4099)
    ∧ GetReg ((AddInstPre ⟨[tdtBlock none], [], none⟩ 0 ⟨4096, 3, 9⟩).getBlock 0).regfile
        ⟨.ip, 0⟩ Facet.I32 = none
    ∧ ((AddInstPre ⟨[tdtBlock none], [], none⟩ 0 ⟨4096, 3, 9⟩).getBlock 0).new_rip =
        some (.select (.constInt 1 0) (.constInt 64 4099) (.constInt 64 4099))
    ∧ AddInst (fun _ => true) (fun _ s => s) ⟨[tdtBlock none], [], none⟩ 0 ⟨4096, 3, 9⟩ =
        .ok (AddInstPre ⟨[tdtBlock none], [], none⟩ 0 ⟨4096, 3, 9⟩) := by
  have h := addInst_prologue_effects (fun _ => true) (fun _ s => s)
    ⟨[tdtBlock none], [], none⟩ 0 ⟨4096, 3, 9⟩ (by decide)
  exact ⟨h.1, h.2.1 Facet.I32 (by decide), h.2.2.2.1, h.2.2.2.2⟩

/-! ## C8: `FillPhis` invalidates the live register-file handle -/

/-- C8.  After `FillPhis` completes, `LLState::regfile` is `NULL`: the
live register-file handle is invalidated, so no further reads or writes
can go through it. -/
theorem fillPhis_invalidates_regfile_handle (st : LState) (bIdx : Nat) :
    (FillPhis st bIdx).stateRegfile = none
    ∧ currentRegfile (FillPhis st bIdx) = none := by
  exact ⟨rfl, rfl⟩

/-! ## C2: `FillPhis` backfills every placeholder with one input per
predecessor -/

theorem phiAddIncoming_length (arena : List PhiNode) (id : Nat) (v : Option Value)
    (bb : Nat) : (phiAddIncoming arena id v bb).length = arena.length := by
  unfold phiAddIncoming
  cases arena.get? id <;> simp

theorem phiAddIncoming_get_ne (arena : List PhiNode) (id id' : Nat) (v : Option Value)
    (bb : Nat) (h : id' ≠ id) :
    (phiAddIncoming arena id v bb).get? id' = arena.get? id' := by
  unfold phiAddIncoming
  cases arena.get? id <;>
    simp [List.get?_eq_getElem?, List.getElem?_set_ne (Ne.symm h)]

theorem phiAddIncoming_get_self (arena : List PhiNode) (id : Nat) (v : Option Value)
    (bb : Nat) (pn : PhiNode) (h : arena.get? id = some pn) :
    (phiAddIncoming arena id v bb).get? id =
      some { pn with incoming := pn.incoming ++ [(v, bb)] } := by
  have hlt : id < arena.length := by
    rw [List.get?_eq_getElem?] at h
    exact (List.getElem?_eq_some.mp h).1
  unfold phiAddIncoming
  rw [h]
  simp [List.get?_eq_getElem?, List.getElem?_set_self hlt]

theorem fillEntries_length (pred : BasicBlock) (es : List (SlotKey × Option Nat))
    (arena : List PhiNode) : (fillEntries pred es arena).length = arena.length := by
  induction es generalizing arena with
  | nil => rfl
  | cons e rest ih =>
      rcases e with ⟨k, _ | id⟩
      · exact ih arena
      · rw [fillEntries, ih]
        exact phiAddIncoming_length arena id (pred.rfValueOf k) pred.llvmBB

theorem fillEntries_get_not_mem (pred : BasicBlock) (es : List (SlotKey × Option Nat))
    (id : Nat) (h : id ∉ es.filterMap Prod.snd) :
    ∀ arena : List PhiNode, (fillEntries pred es arena).get? id = arena.get? id := by
  induction es with
  | nil => intro arena; rfl
  | cons e rest ih =>
      intro arena
      rcases e with ⟨k, _ | id'⟩
      · exact ih (fun hm => h (by simpa [List.filterMap_cons] using hm)) arena
      · have hne : id ≠ id' := by
          intro hEq
          exact h (by simp [List.filterMap_cons, hEq])
        have hrest : id ∉ rest.filterMap Prod.snd := by
          intro hm
          exact h (by simp [List.filterMap_cons, hm])
        rw [fillEntries, ih hrest]
        exact phiAddIncoming_get_ne arena id' id (pred.rfValueOf k) pred.llvmBB hne

theorem fillEntries_get_hit (pred : BasicBlock) (es : List (SlotKey × Option Nat))
    (k : SlotKey) (id : Nat)
    (hnd : (es.filterMap Prod.snd).Nodup) (hmem : (k, some id) ∈ es) :
    ∀ (arena : List PhiNode) (pn : PhiNode), arena.get? id = some pn →
      (fillEntries pred es arena).get? id =
        some { pn with incoming := pn.incoming ++ [(pred.rfValueOf k, pred.llvmBB)] } := by
  induction es with
  | nil => cases hmem
  | cons e rest ih =>
      intro arena pn hget
      rcases e with ⟨k0, s0⟩
      rcases hse : s0 with _ | id'
      · subst hse
        have hmem' : (k, some id) ∈ rest := by
          rcases List.mem_cons.mp hmem with hEq | hm
          · cases congrArg Prod.snd hEq
          · exact hm
        have hnd' : (rest.filterMap Prod.snd).Nodup := by
          rw [List.filterMap_cons] at hnd
          exact hnd
        exact ih hnd' hmem' arena pn hget
      · subst hse
        by_cases hid : id' = id
        · subst hid
          have hk : k = k0 := by
            rcases List.mem_cons.mp hmem with hEq | hm
            · exact congrArg Prod.fst hEq
            · exfalso
              rw [List.filterMap_cons] at hnd
              simp only [List.nodup_cons] at hnd
              exact hnd.1 (List.mem_filterMap.mpr ⟨(k, some id'), hm, rfl⟩)
          subst hk
          have hrest : id' ∉ rest.filterMap Prod.snd := by
            rw [List.filterMap_cons] at hnd
            simp only [List.nodup_cons] at hnd
            exact hnd.1
          rw [fillEntries]
          rw [fillEntries_get_not_mem pred rest id' hrest]
          exact phiAddIncoming_get_self arena id' (pred.rfValueOf k) pred.llvmBB pn hget
        · have hmem' : (k, some id) ∈ rest := by
            rcases List.mem_cons.mp hmem with hEq | hm
            · exfalso
              have h2 := congrArg Prod.snd hEq
              simp only [Option.some.injEq] at h2
              exact hid h2.symm
            · exact hm
          have hnd' : (rest.filterMap Prod.snd).Nodup := by
            rw [List.filterMap_cons] at hnd
            simp only [List.nodup_cons] at hnd
            exact hnd.2
          rw [fillEntries]
          have hget' : (phiAddIncoming arena id' (pred.rfValueOf k0) pred.llvmBB).get? id
              = some pn := by
            rw [phiAddIncoming_get_ne arena id' id (pred.rfValueOf k0) pred.llvmBB
              (fun hEq => hid hEq.symm)]
            exact hget
          exact ih hnd' hmem' _ pn hget'

/-- The incoming entry block `B` receives from predecessor `p` (an arena
index) for placeholder position `k`: the value predecessor `p`'s register
file holds for `k`, keyed by `p`'s `llvmBB`. -/
def predIncoming (st : LState) (k : SlotKey) (p : Nat) : Option Value × Nat :=
  ((st.getBlock p).rfValueOf k, (st.getBlock p).llvmBB)

theorem fillPhis_fold_get_hit (st : LState) (b : BasicBlock) (ps : List Nat)
    (k : SlotKey) (id : Nat)
    (hnd : ((slotEntries b).filterMap Prod.snd).Nodup)
    (hmem : (k, some id) ∈ slotEntries b) :
    ∀ (arena : List PhiNode) (pn : PhiNode), arena.get? id = some pn →
      (ps.foldl (fun ar p => fillEntries (st.getBlock p) (slotEntries b) ar) arena).get? id
        = some { pn with incoming := pn.incoming ++ ps.map (predIncoming st k) } := by
  induction ps with
  | nil => intro arena pn hget; simpa using hget
  | cons p rest ih =>
      intro arena pn hget
      have hstep := fillEntries_get_hit (st.getBlock p) (slotEntries b) k id
        hnd hmem arena pn hget
      have := ih _ _ hstep
      rw [List.foldl_cons]
      rw [this]
      simp [predIncoming]

/-- C2.  After `FillPhis` runs on block `B`, every merge placeholder of
`B` — each general-purpose and vector register-facet placeholder and each
flag placeholder, all starting with zero inputs — has exactly one input
per entry of `B`'s predecessor list, in the list's order, each input
being the value that predecessor's register file holds for the matching
(register, facet) or flag index, keyed by the predecessor's block
identity.  The placeholders are assumed pairwise distinct PHI nodes, as
`CreatePHI` guarantees. -/
theorem fillPhis_backfills_placeholders (st : LState) (bIdx : Nat)
    (hnd : ((slotEntries (st.getBlock bIdx)).filterMap Prod.snd).Nodup)
    (hzero : ∀ id ∈ (slotEntries (st.getBlock bIdx)).filterMap Prod.snd,
      (st.phiArena.get? id).map PhiNode.incoming = some []) :
    ∀ k id, (k, some id) ∈ slotEntries (st.getBlock bIdx) →
      ∃ ty, st.phiArena.get? id = some ⟨ty, []⟩
        ∧ (FillPhis st bIdx).phiArena.get? id =
            some ⟨ty, ((st.getBlock bIdx).preds.map (predIncoming st k))⟩ := by
  intro k id hmem
  have hidmem : id ∈ (slotEntries (st.getBlock bIdx)).filterMap Prod.snd :=
    List.mem_filterMap.mpr ⟨(k, some id), hmem, rfl⟩
  have hz := hzero id hidmem
  rcases hget : st.phiArena.get? id with _ | pn
  · rw [hget] at hz; cases hz
  · rw [hget] at hz
    simp only [Option.map_some'] at hz
    refine ⟨pn.ty, ?_, ?_⟩
    · cases pn
      simp_all
    · have hfold := fillPhis_fold_get_hit st (st.getBlock bIdx) (st.getBlock bIdx).preds k id
        hnd hmem st.phiArena pn hget
      simp only [FillPhis]
      rw [hfold]
      cases pn
      simp_all

/-- Concrete join block for the C2 witness: one `I64` placeholder on
general-purpose register 0 (arena index 0), one predecessor (block 1). -/
def c2Join : BasicBlock :=
  { BasicBlock.default with
      llvmBB := 20
      phis_gp := fun i => if i = 0 then [(Facet.I64, some 0)] else []
      preds := [1] }

/-- Concrete predecessor block for the C2 witness: its final register
file holds 5 in the `I64` facet of general-purpose register 0. -/
def c2Pred : BasicBlock :=
  { BasicBlock.default with
      llvmBB := 21
      regfile := SetReg RegFile.empty ⟨.gp64, 0⟩ Facet.I64 (.constInt 64 5) false }

/-- Witness for C2 on a concrete two-block arena: after `FillPhis` the
single placeholder of the join block has exactly one input — the
predecessor's value for (gp0, I64), keyed by the predecessor's block. -/
theorem fillPhis_backfills_placeholders_witness :
    ∃ ty, (⟨[c2Join, c2Pred], [⟨FacetType Facet.I64, []⟩], some 0⟩ : LState).phiArena.get? 0 =
        some ⟨ty, []⟩
      ∧ (FillPhis ⟨[c2Join, c2Pred], [⟨FacetType Facet.I64, []⟩], some 0⟩ 0).phiArena.get? 0 =
          some ⟨ty, (((⟨[c2Join, c2Pred], [⟨FacetType Facet.I64, []⟩], some 0⟩ : LState).getBlock
            0).preds.map
              (predIncoming ⟨[c2Join, c2Pred], [⟨FacetType Facet.I64, []⟩], some 0⟩
                (SlotKey.gp 0 Facet.I64)))⟩ :=
  fillPhis_backfills_placeholders ⟨[c2Join, c2Pred], [⟨FacetType Facet.I64, []⟩], some 0⟩ 0
    (by decide) (by decide) (SlotKey.gp 0 Facet.I64) 0 (by decide)

/-! ## C7: `AddPhis` creates the placeholders -/

/-- A placeholder position's facet key is present in the block's
requirement structure (for flags: always, `AddPhis` covers every flag
index). -/
def BasicBlock.hasKey (b : BasicBlock) : SlotKey → Prop
  | .gp i f => f ∈ (b.phis_gp i).map Prod.fst
  | .sse i f => f ∈ (b.phis_sse i).map Prod.fst
  | .flag _ => True

/-- The placeholder at position `k` of block `bIdx` is installed: the
slot structure stores arena index `id`, the arena holds at `id` a node of
the position's catalog type with no incoming values, and the block's
register file currently holds the PHI value at the position. -/
def placed (bIdx : Nat) (k : SlotKey) (id : Nat) (st : LState) : Prop :=
  ((st.getBlock bIdx).slotOf k = some id)
  ∧ st.phiArena.get? id = some ⟨k.ty, []⟩
  ∧ ((st.getBlock bIdx).rfValueOf k = some (.phi id))
  ∧ id < st.phiArena.length

theorem setSlot_cons (f0 : Facet) (s0 : Option Nat) (rest : List (Facet × Option Nat))
    (f : Facet) (id : Nat) :
    setSlot ((f0, s0) :: rest) f id =
      (if f0 = f then (f0, some id) else (f0, s0)) :: setSlot rest f id := rfl

theorem lookupSlot_setSlot_self (l : List (Facet × Option Nat)) (f : Facet) (id : Nat)
    (h : f ∈ l.map Prod.fst) : lookupSlot (setSlot l f id) f = some id := by
  induction l with
  | nil => cases h
  | cons e rest ih =>
      rcases e with ⟨f0, s0⟩
      rw [setSlot_cons]
      by_cases hef : f0 = f
      · subst hef
        rw [if_pos rfl]
        simp [lookupSlot]
      · have hf : f ∈ rest.map Prod.fst := by
          rcases List.mem_map.mp h with ⟨e', he', hfe⟩
          rcases List.mem_cons.mp he' with hEq | hm
          · exact absurd (by rw [hEq] at hfe; exact hfe) hef
          · exact List.mem_map.mpr ⟨e', hm, hfe⟩
        rw [if_neg hef]
        simp only [lookupSlot, if_neg hef]
        exact ih hf

theorem lookupSlot_setSlot_ne (l : List (Facet × Option Nat)) (f f' : Facet) (id : Nat)
    (h : f' ≠ f) : lookupSlot (setSlot l f id) f' = lookupSlot l f' := by
  induction l with
  | nil => rfl
  | cons e rest ih =>
      rcases e with ⟨f0, s0⟩
      rw [setSlot_cons]
      by_cases hef : f0 = f
      · subst hef
        rw [if_pos rfl]
        have hne : ¬f0 = f' := fun hEq => h hEq.symm
        simp only [lookupSlot, if_neg hne]
        exact ih
      · rw [if_neg hef]
        by_cases hef' : f0 = f'
        · simp [lookupSlot, hef']
        · simp only [lookupSlot, if_neg hef']
          exact ih

theorem map_fst_setSlot (l : List (Facet × Option Nat)) (f : Facet) (id : Nat) :
    (setSlot l f id).map Prod.fst = l.map Prod.fst := by
  induction l with
  | nil => rfl
  | cons e rest ih =>
      rcases e with ⟨f0, s0⟩
      rw [setSlot_cons]
      by_cases hef : f0 = f
      · subst hef
        rw [if_pos rfl]
        simpa using ih
      · rw [if_neg hef]
        simpa using ih

theorem addPhiStep_blocks_length (bIdx : Nat) (st : LState) (k : SlotKey) :
    (addPhiStep bIdx st k).blocks.length = st.blocks.length := by
  rcases k with ⟨i, f⟩ | ⟨i, f⟩ | i <;>
    simp [addPhiStep, LState.updateBlock]

theorem addPhiStep_arena_length (bIdx : Nat) (st : LState) (k : SlotKey) :
    (addPhiStep bIdx st k).phiArena.length = st.phiArena.length + 1 := by
  rcases k with ⟨i, f⟩ | ⟨i, f⟩ | i <;>
    simp [addPhiStep, LState.updateBlock]

theorem addPhiStep_arena_get (bIdx : Nat) (st : LState) (k : SlotKey) (id : Nat)
    (hid : id < st.phiArena.length) :
    (addPhiStep bIdx st k).phiArena.get? id = st.phiArena.get? id := by
  rcases k with ⟨i, f⟩ | ⟨i, f⟩ | i <;>
    simp [addPhiStep, LState.updateBlock, List.get?_eq_getElem?,
      List.getElem?_append_left hid]

theorem addPhiStep_arena_get_new (bIdx : Nat) (st : LState) (k : SlotKey) :
    (addPhiStep bIdx st k).phiArena.get? st.phiArena.length = some ⟨k.ty, []⟩ := by
  rcases k with ⟨i, f⟩ | ⟨i, f⟩ | i <;>
    simp [addPhiStep, LState.updateBlock, List.get?_eq_getElem?]

theorem addPhiStep_getBlock_self (bIdx : Nat) (st : LState) (k : SlotKey)
    (hb : bIdx < st.blocks.length) :
    (addPhiStep bIdx st k).getBlock bIdx =
      (fun b =>
        match k with
        | .gp i f =>
            { b with body := b.body ++ [.phiDecl st.phiArena.length],
                     regfile := SetReg b.regfile ⟨.gp64, i⟩ f (.phi st.phiArena.length) false,
                     phis_gp := Function.update b.phis_gp i
                       (setSlot (b.phis_gp i) f st.phiArena.length) }
        | .sse i f =>
            { b with body := b.body ++ [.phiDecl st.phiArena.length],
                     regfile := SetReg b.regfile ⟨.xmm, i⟩ f (.phi st.phiArena.length) false,
                     phis_sse := Function.update b.phis_sse i
                       (setSlot (b.phis_sse i) f st.phiArena.length) }
        | .flag i =>
            { b with body := b.body ++ [.phiDecl st.phiArena.length],
                     regfile := SetFlag b.regfile i (.phi st.phiArena.length),
                     phiFlags := Function.update b.phiFlags i
                       (some st.phiArena.length) }) (st.getBlock bIdx) := by
  rcases k with ⟨i, f⟩ | ⟨i, f⟩ | i <;>
    simp [addPhiStep, LState.updateBlock, LState.getBlock, List.getD_eq_getElem?_getD,
      List.getElem?_set_self hb]

theorem addPhiStep_places (bIdx : Nat) (st : LState) (k : SlotKey)
    (hb : bIdx < st.blocks.length) (hk : (st.getBlock bIdx).hasKey k) :
    placed bIdx k st.phiArena.length (addPhiStep bIdx st k) := by
  refine ⟨?_, addPhiStep_arena_get_new bIdx st k, ?_, by
    rw [addPhiStep_arena_length]; omega⟩
  · rw [addPhiStep_getBlock_self bIdx st k hb]
    rcases k with ⟨i, f⟩ | ⟨i, f⟩ | i
    · simp only [BasicBlock.hasKey] at hk
      simp [BasicBlock.slotOf, Function.update_same, lookupSlot_setSlot_self _ _ _ hk]
    · simp only [BasicBlock.hasKey] at hk
      simp [BasicBlock.slotOf, Function.update_same, lookupSlot_setSlot_self _ _ _ hk]
    · simp [BasicBlock.slotOf, Function.update_same]
  · rw [addPhiStep_getBlock_self bIdx st k hb]
    rcases k with ⟨i, f⟩ | ⟨i, f⟩ | i
    · simp [BasicBlock.rfValueOf, GetReg, SetReg]
    · simp [BasicBlock.rfValueOf, GetReg, SetReg]
    · simp [BasicBlock.rfValueOf, GetFlag, SetFlag]

theorem addPhiStep_rfValue_ne (bIdx : Nat) (st : LState) (k k' : SlotKey)
    (hb : bIdx < st.blocks.length) (hne : k' ≠ k) :
    ((addPhiStep bIdx st k).getBlock bIdx).rfValueOf k' =
      (st.getBlock bIdx).rfValueOf k' := by
  rw [addPhiStep_getBlock_self bIdx st k hb]
  rcases k with ⟨i, f⟩ | ⟨i, f⟩ | i <;> rcases k' with ⟨i', f'⟩ | ⟨i', f'⟩ | i'
  · by_cases hii : i' = i
    · subst hii
      have hff : f' ≠ f := fun h => hne (by rw [h])
      simp [BasicBlock.rfValueOf, GetReg, SetReg, hff]
    · have hv : (i' : Nat) ≠ (i : Nat) := fun hv => hii (Fin.val_injective hv)
      simp [BasicBlock.rfValueOf, GetReg, SetReg, LLReg.mk.injEq, hv]
  · simp [BasicBlock.rfValueOf, GetReg, SetReg, LLReg.mk.injEq]
  · simp [BasicBlock.rfValueOf, GetFlag, SetReg]
  · simp [BasicBlock.rfValueOf, GetReg, SetReg, LLReg.mk.injEq]
  · by_cases hii : i' = i
    · subst hii
      have hff : f' ≠ f := fun h => hne (by rw [h])
      simp [BasicBlock.rfValueOf, GetReg, SetReg, hff]
    · have hv : (i' : Nat) ≠ (i : Nat) := fun hv => hii (Fin.val_injective hv)
      simp [BasicBlock.rfValueOf, GetReg, SetReg, LLReg.mk.injEq, hv]
  · simp [BasicBlock.rfValueOf, GetFlag, SetReg]
  · simp [BasicBlock.rfValueOf, GetReg, SetFlag]
  · simp [BasicBlock.rfValueOf, GetReg, SetFlag]
  · have hv : (i' : Nat) ≠ (i : Nat) :=
      fun hv => hne (by rw [Fin.val_injective hv])
    simp [BasicBlock.rfValueOf, GetFlag, SetFlag, hv]

theorem addPhiStep_slotOf_ne (bIdx : Nat) (st : LState) (k k' : SlotKey)
    (hb : bIdx < st.blocks.length) (hne : k' ≠ k) :
    ((addPhiStep bIdx st k).getBlock bIdx).slotOf k' =
      (st.getBlock bIdx).slotOf k' := by
  rw [addPhiStep_getBlock_self bIdx st k hb]
  rcases k with ⟨i, f⟩ | ⟨i, f⟩ | i <;> rcases k' with ⟨i', f'⟩ | ⟨i', f'⟩ | i'
  · by_cases hii : i' = i
    · subst hii
      have hff : f' ≠ f := fun h => hne (by rw [h])
      simp [BasicBlock.slotOf, Function.update_same, lookupSlot_setSlot_ne _ _ _ _ hff]
    · simp [BasicBlock.slotOf, Function.update_noteq hii]
  · simp [BasicBlock.slotOf]
  · simp [BasicBlock.slotOf]
  · simp [BasicBlock.slotOf]
  · by_cases hii : i' = i
    · subst hii
      have hff : f' ≠ f := fun h => hne (by rw [h])
      simp [BasicBlock.slotOf, Function.update_same, lookupSlot_setSlot_ne _ _ _ _ hff]
    · simp [BasicBlock.slotOf, Function.update_noteq hii]
  · simp [BasicBlock.slotOf]
  · simp [BasicBlock.slotOf]
  · simp [BasicBlock.slotOf]
  · have hii : i' ≠ i := fun h => hne (by rw [h])
    simp [BasicBlock.slotOf, Function.update_noteq hii]

theorem addPhiStep_preserves_placed (bIdx : Nat) (st : LState) (k k' : SlotKey)
    (id : Nat) (hb : bIdx < st.blocks.length) (hne : k' ≠ k)
    (h : placed bIdx k' id st) : placed bIdx k' id (addPhiStep bIdx st k) := by
  obtain ⟨h1, h2, h3, h4⟩ := h
  refine ⟨?_, ?_, ?_, ?_⟩
  · rw [addPhiStep_slotOf_ne bIdx st k k' hb hne]; exact h1
  · rw [addPhiStep_arena_get bIdx st k id h4]; exact h2
  · rw [addPhiStep_rfValue_ne bIdx st k k' hb hne]; exact h3
  · rw [addPhiStep_arena_length]; omega

theorem addPhiStep_hasKey (bIdx : Nat) (st : LState) (k k' : SlotKey)
    (hb : bIdx < st.blocks.length) (h : (st.getBlock bIdx).hasKey k') :
    ((addPhiStep bIdx st k).getBlock bIdx).hasKey k' := by
  rw [addPhiStep_getBlock_self bIdx st k hb]
  rcases k with ⟨i, f⟩ | ⟨i, f⟩ | i <;> rcases k' with ⟨i', f'⟩ | ⟨i', f'⟩ | i' <;>
    simp only [BasicBlock.hasKey] at h ⊢ <;> try exact h
  · by_cases hii : i' = i
    · subst hii
      simpa [Function.update_same, map_fst_setSlot] using h
    · simpa [Function.update_noteq hii] using h
  · by_cases hii : i' = i
    · subst hii
      simpa [Function.update_same, map_fst_setSlot] using h
    · simpa [Function.update_noteq hii] using h

theorem addPhisEntries_blocks_length (bIdx : Nat) (es : List SlotKey) :
    ∀ st : LState, (addPhisEntries bIdx st es).blocks.length = st.blocks.length := by
  induction es with
  | nil => intro st; rfl
  | cons k rest ih =>
      intro st
      rw [addPhisEntries, ih, addPhiStep_blocks_length]

theorem addPhisEntries_preserves_placed (bIdx : Nat) (es : List SlotKey) (k : SlotKey)
    (id : Nat) :
    ∀ st : LState, bIdx < st.blocks.length → k ∉ es → placed bIdx k id st →
      placed bIdx k id (addPhisEntries bIdx st es) := by
  induction es with
  | nil => intro st _ _ h; exact h
  | cons k0 rest ih =>
      intro st hb hmem h
      rw [addPhisEntries]
      have hne : k ≠ k0 := fun hEq => hmem (hEq ▸ List.mem_cons_self k0 rest)
      exact ih _ (by rw [addPhiStep_blocks_length]; exact hb)
        (fun hm => hmem (List.mem_cons_of_mem _ hm))
        (addPhiStep_preserves_placed bIdx st k0 k id hb hne h)

theorem addPhisEntries_rfValue_not_mem (bIdx : Nat) (es : List SlotKey) (k : SlotKey) :
    ∀ st : LState, bIdx < st.blocks.length → k ∉ es →
      ((addPhisEntries bIdx st es).getBlock bIdx).rfValueOf k =
        (st.getBlock bIdx).rfValueOf k := by
  induction es with
  | nil => intro st _ _; rfl
  | cons k0 rest ih =>
      intro st hb hmem
      rw [addPhisEntries, ih _ (by rw [addPhiStep_blocks_length]; exact hb)
          (fun hm => hmem (List.mem_cons_of_mem _ hm)),
        addPhiStep_rfValue_ne bIdx st k0 k hb
          (fun hEq => hmem (hEq ▸ List.mem_cons_self k0 rest))]

theorem addPhisEntries_places (bIdx : Nat) (es : List SlotKey) :
    ∀ st : LState, bIdx < st.blocks.length → es.Nodup →
      (∀ k ∈ es, (st.getBlock bIdx).hasKey k) →
      ∀ k ∈ es, ∃ id, placed bIdx k id (addPhisEntries bIdx st es) := by
  induction es with
  | nil => intro st _ _ _ k hk; cases hk
  | cons k0 rest ih =>
      intro st hb hnd hkeys k hkmem
      rw [addPhisEntries]
      have hb' : bIdx < (addPhiStep bIdx st k0).blocks.length := by
        rw [addPhiStep_blocks_length]; exact hb
      rcases List.mem_cons.mp hkmem with hEq | hm
      · subst hEq
        refine ⟨st.phiArena.length, ?_⟩
        have hplaced := addPhiStep_places bIdx st k hb (hkeys k (List.mem_cons_self _ _))
        have hkrest : k ∉ rest := (List.nodup_cons.mp hnd).1
        exact addPhisEntries_preserves_placed bIdx rest k st.phiArena.length _ hb'
          hkrest hplaced
      · exact ih _ hb' (List.nodup_cons.mp hnd).2
          (fun k' hk' => addPhiStep_hasKey bIdx st k0 k' hb
            (hkeys k' (List.mem_cons_of_mem _ hk'))) k hm

theorem hasKey_of_mem_reqEntries (b : BasicBlock) (k : SlotKey)
    (h : k ∈ reqEntries b) : b.hasKey k := by
  unfold reqEntries slotEntries at h
  rcases List.mem_map.mp h with ⟨e, he, rfl⟩
  rcases List.mem_append.mp he with h1 | h2
  · rcases List.mem_append.mp h1 with hgp | hsse
    · rcases List.mem_flatMap.mp hgp with ⟨i, _, hi⟩
      rcases List.mem_map.mp hi with ⟨e', he', rfl⟩
      exact List.mem_map.mpr ⟨e', he', rfl⟩
    · rcases List.mem_flatMap.mp hsse with ⟨i, _, hi⟩
      rcases List.mem_map.mp hi with ⟨e', he', rfl⟩
      exact List.mem_map.mpr ⟨e', he', rfl⟩
  · rcases List.mem_map.mp h2 with ⟨i, _, rfl⟩
    exact trivial

theorem flag_mem_reqEntries (b : BasicBlock) (i : Fin RFLAG_Max) :
    SlotKey.flag i ∈ reqEntries b := by
  unfold reqEntries slotEntries
  refine List.mem_map.mpr ⟨(SlotKey.flag i, b.phiFlags i), ?_, rfl⟩
  exact List.mem_append.mpr (Or.inr (List.mem_map.mpr ⟨i, List.mem_finRange i, rfl⟩))

/-- C7.  `AddPhis` creates, for every position in the block's precomputed
facet-requirement worklist, one zero-input merge placeholder of the
position's catalog type, records it in the slot structure and installs it
into the register file; every flag index is in the worklist
unconditionally; and every register-file position not in the worklist is
left untouched (each install is a plain, non-invalidating write, so
sibling facets of the same register are not disturbed). -/
theorem addPhis_creates_placeholders (st : LState) (bIdx : Nat)
    (hb : bIdx < st.blocks.length)
    (hnd : (reqEntries (st.getBlock bIdx)).Nodup) :
    (∀ k ∈ reqEntries (st.getBlock bIdx), ∃ id,
        ((AddPhis st bIdx).getBlock bIdx).slotOf k = some id
        ∧ (AddPhis st bIdx).phiArena.get? id = some ⟨k.ty, []⟩
        ∧ ((AddPhis st bIdx).getBlock bIdx).rfValueOf k = some (.phi id))
    ∧ (∀ i : Fin RFLAG_Max, SlotKey.flag i ∈ reqEntries (st.getBlock bIdx))
    ∧ (∀ k, k ∉ reqEntries (st.getBlock bIdx) →
        ((AddPhis st bIdx).getBlock bIdx).rfValueOf k =
          (st.getBlock bIdx).rfValueOf k) := by
  refine ⟨?_, fun i => flag_mem_reqEntries _ i, ?_⟩
  · intro k hk
    have h := addPhisEntries_places bIdx (reqEntries (st.getBlock bIdx))
      (SetCurrent st bIdx) hb hnd
      (fun k' hk' => hasKey_of_mem_reqEntries _ _ hk') k hk
    rcases h with ⟨id, h1, h2, h3, _⟩
    exact ⟨id, h1, h2, h3⟩
  · intro k hk
    exact addPhisEntries_rfValue_not_mem bIdx (reqEntries (st.getBlock bIdx)) k
      (SetCurrent st bIdx) hb hk

/-- Concrete block for the C7 witness: two general-purpose facets are
required on register 0, one vector facet on register 1, no slot filled
yet. -/
def c7Block : BasicBlock :=
  { BasicBlock.default with
      llvmBB := 30
      phis_gp := fun i => if i = 0 then [(Facet.I64, none), (Facet.I32, none)] else []
      phis_sse := fun i => if i = 1 then [(Facet.V2I64, none)] else [] }

/-- Witness for C7: on the concrete one-block arena, the `I64` placeholder
of register 0 is installed, flag 0 is in the worklist, and the `I8` facet
of register 0 (not required) is untouched. -/
theorem addPhis_creates_placeholders_witness :
    (∃ id, ((AddPhis ⟨[c7Block], [], none⟩ 0).getBlock 0).slotOf
          (SlotKey.gp 0 Facet.I64) = some id
        ∧ (AddPhis ⟨[c7Block], [], none⟩ 0).phiArena.get? id =
            some ⟨(SlotKey.gp 0 Facet.I64).ty, []⟩
        ∧ ((AddPhis ⟨[c7Block], [], none⟩ 0).getBlock 0).rfValueOf
            (SlotKey.gp 0 Facet.I64) = some (.phi id))
    ∧ SlotKey.flag 0 ∈ reqEntries ((⟨[c7Block], [], none⟩ : LState).getBlock 0)
    ∧ ((AddPhis ⟨[c7Block], [], none⟩ 0).getBlock 0).rfValueOf (SlotKey.gp 0 Facet.I8) =
        ((⟨[c7Block], [], none⟩ : LState).getBlock 0).rfValueOf (SlotKey.gp 0 Facet.I8) := by
  have h := addPhis_creates_placeholders ⟨[c7Block], [], none⟩ 0 (by decide) (by decide)
  exact ⟨h.1 (SlotKey.gp 0 Facet.I64) (by decide), h.2.1 0,
    h.2.2 (SlotKey.gp 0 Facet.I8) (by decide)⟩

end Rellume
